import Mathlib

/-!
# Verification of `chargelab_monitor.py`

A shallow embedding of the chargelab monitor: the State Fetcher
(`query_api`, `extract_port_data`), the Change-Detecting Recorder
(`get_last_port_state`, `store_data`) and store initialization
(`init_database`), together with proofs of the specification's claims.

Conventions of the embedding:
* JSON-like Python values are the inductive `PyVal`; Python operations that
  can raise (`in` on a non-container, subscripting, `.get` on a non-dict)
  return `Except Unit _`, and the `try/except` of the source catches the
  error case.
* The SQLite table `charger_data` is a list of `Row`s in insertion order;
  the autoincrement `id` is the list position, so `ORDER BY id DESC LIMIT 1`
  is `List.getLast?` of the matching rows.
* `store_data` in the source inserts on one connection and commits only
  after its loop, while `get_last_port_state` reads through a fresh
  connection and hence sees only rows committed before the call began.
  The embedding therefore passes the pre-call store `db` to every lookup
  and appends the pending rows at the end.
-/

namespace ChargelabMonitor

/-! ## Python/JSON values -/

/-- JSON-like Python values, the domain of `response.json()`. -/
inductive PyVal where
  | none
  | bool (b : Bool)
  | int (n : Int)
  | str (s : String)
  | list (xs : List PyVal)
  | dict (kvs : List (String × PyVal))

/-- Python dict lookup on an association list (keys are unique in a real
dict; first match is taken). -/
def lookupKey (kvs : List (String × PyVal)) (k : String) : Option PyVal :=
  (kvs.find? (fun kv => kv.1 == k)).map (·.2)

/-- Does the character list start with the given needle? -/
def charsStartWith : List Char → List Char → Bool
  | [], _ => true
  | _ :: _, [] => false
  | n :: ns, h :: hs => n == h && charsStartWith ns hs

/-- Does the character list contain the needle as a contiguous run? -/
def charsContain (needle : List Char) : List Char → Bool
  | [] => needle.isEmpty
  | h :: hs => charsStartWith needle (h :: hs) || charsContain needle hs

/-- Python substring test `needle in hay` for strings. -/
def strContains (hay needle : String) : Bool :=
  charsContain needle.toList hay.toList

/-- Python membership `s in v`: key test on a dict, element test on a list
(a string only equals a string), substring test on a string; `TypeError`
on `None`, booleans and numbers. -/
def pyContains (s : String) : PyVal → Except Unit Bool
  | .dict kvs => .ok (kvs.any (fun kv => kv.1 == s))
  | .list xs => .ok (xs.any (fun x => match x with | .str t => t == s | _ => false))
  | .str t => .ok (strContains t s)
  | _ => .error ()

/-- Python subscript `v[k]` with a string key: dict lookup (KeyError when
absent), `TypeError` on every other type (list and string indices must be
integers). -/
def pyGetStr : PyVal → String → Except Unit PyVal
  | .dict kvs, k =>
    match lookupKey kvs k with
    | some v => .ok v
    | Option.none => .error ()
  | _, _ => .error ()

/-- Python `v.get(k, d)`: only dicts have `.get`; `AttributeError`
otherwise. -/
def pyDictGet : PyVal → String → PyVal → Except Unit PyVal
  | .dict kvs, k, d => .ok ((lookupKey kvs k).getD d)
  | _, _, _ => .error ()

/-! ## State Fetcher: `extract_port_data` (lines 66-83) -/

/-- The inner `for port in entity['ports']` loop: each dict port
contributes the pair `(port.get('portId','unknown'),
port.get('status','unknown'))`; a non-dict port raises, which aborts the
whole extraction with the pairs accumulated so far (second component
`true` = an exception was raised). -/
def extractPortsLoop (acc : List (PyVal × PyVal)) :
    List PyVal → List (PyVal × PyVal) × Bool
  | [] => (acc, false)
  | port :: rest =>
    match pyDictGet port "portId" (.str "unknown") with
    | .error _ => (acc, true)
    | .ok pid =>
      match pyDictGet port "status" (.str "unknown") with
      | .error _ => (acc, true)
      | .ok pst => extractPortsLoop (acc ++ [(pid, pst)]) rest

/-- The outer `for entity in entities` loop with the guard
`if 'ports' in entity and isinstance(entity['ports'], list)`.
`'ports' in entity` raises on a number/bool/None entity; `entity['ports']`
raises on a list or string entity that passed the membership test.  An
exception aborts the loop, keeping the pairs accumulated so far. -/
def extractEntitiesLoop (acc : List (PyVal × PyVal)) :
    List PyVal → List (PyVal × PyVal) × Bool
  | [] => (acc, false)
  | entity :: rest =>
    match pyContains "ports" entity with
    | .error _ => (acc, true)
    | .ok false => extractEntitiesLoop acc rest
    | .ok true =>
      match pyGetStr entity "ports" with
      | .error _ => (acc, true)
      | .ok pv =>
        match pv with
        | .list ports =>
          match extractPortsLoop acc ports with
          | (acc2, true) => (acc2, true)
          | (acc2, false) => extractEntitiesLoop acc2 rest
        | _ => extractEntitiesLoop acc rest

/-- The body of the `try` block of `extract_port_data`: navigate
`response_data['entities']` when `response_data` is a dict with that key
and the value is a list; return the accumulated pairs together with a flag
recording whether an exception was raised (and caught). -/
def extractCore (response_data : PyVal) : List (PyVal × PyVal) × Bool :=
  match response_data with
  | .dict kvs =>
    match lookupKey kvs "entities" with
    | some (.list entities) => extractEntitiesLoop [] entities
    | _ => ([], false)
  | _ => ([], false)

/-- Model of `extract_port_data` (lines 66-83): the `except` clause swallows the
exception, and `return port_data if port_data else [('unknown','error')]`
yields the sentinel exactly when no pair was accumulated. -/
def extract_port_data (response_data : PyVal) : List (PyVal × PyVal) :=
  let r := extractCore response_data
  if r.1.isEmpty then [(.str "unknown", .str "error")] else r.1

/-! ## State Fetcher: `query_api` (lines 50-64) -/

/-- The outcome of `requests.get(url, timeout=30)` as seen by
`query_api`: either the request machinery raised a
`RequestException` (timeout, connection error, and also the
`JSONDecodeError` raised by `response.json()` on an unparsable 200 body,
which subclasses `RequestException`), or a response arrived with a status
code, a text body, and the body's JSON parse (`Except` holds the decode
error message). -/
inductive HttpOutcome where
  | requestError (msg : String)
  | response (status_code : Int) (text : String) (json : Except String PyVal)

/-- The dict `query_api` returns: `{'status_code': ..., 'data': ...}`. -/
structure QueryResult where
  status_code : Int
  data : PyVal

def API_BASE_URL : String := "https://api-v1-blue.chargelab.io/core/v1/chargers"

/-- Model of `query_api` (lines 50-64): on a 200 response return the parsed JSON;
on a non-200 response return the raw text; on any `RequestException`
(including a JSON decode failure of a 200 body) return status 0 with an
error dict. -/
def query_api (charger_name : String) (outcome : HttpOutcome) : QueryResult :=
  let _url := API_BASE_URL ++ "?filter_eq[name]=" ++ charger_name
  match outcome with
  | .requestError msg => ⟨0, .dict [("error", .str msg)]⟩
  | .response code text json =>
    if code = 200 then
      match json with
      | .ok j => ⟨code, j⟩
      | .error msg => ⟨0, .dict [("error", .str msg)]⟩
    else ⟨code, .str text⟩

/-! ## Change-Detecting Recorder: the `charger_data` store -/

/-- One row of the `charger_data` table (minus the autoincrement `id`,
which is the row's position in the store list). -/
structure Row where
  charger_name : String
  timestamp : String
  port_id : String
  port_status : String
deriving DecidableEq

/-- The committed content of the `charger_data` table, in `id` order. -/
abbrev Store := List Row

/-- Model of `get_last_port_state` (lines 85-96):
`SELECT port_status FROM charger_data WHERE charger_name = ? AND
port_id = ? ORDER BY id DESC LIMIT 1` over the committed store, i.e. the
`port_status` of the last matching row. -/
def get_last_port_state (db : Store) (charger_name port_id : String) : Option String :=
  ((db.filter (fun r => r.charger_name == charger_name && r.port_id == port_id)).getLast?).map
    (·.port_status)

/-- The `for port_id, port_status in port_data` loop of `store_data`
(lines 106-115).  Every lookup goes through `get_last_port_state`, which
opens its own connection and therefore sees only the pre-call store `db`;
the inserts accumulate on the separate write connection (`pending`) and
are committed only after the loop. -/
def storeLoop (db : Store) (charger_name timestamp : String) :
    List (String × String) → List Row → Bool → List Row × Bool
  | [], pending, stored_any => (pending, stored_any)
  | (port_id, port_status) :: rest, pending, stored_any =>
    let last_status := get_last_port_state db charger_name port_id
    if last_status = Option.none ∨ last_status ≠ some port_status then
      storeLoop db charger_name timestamp rest
        (pending ++ [⟨charger_name, timestamp, port_id, port_status⟩]) true
    else
      storeLoop db charger_name timestamp rest pending stored_any

/-- Model of `store_data` (lines 98-119), modelled over the already-extracted pairs
list (the source first computes `port_data = extract_port_data(response)`
and then runs the loop): run the conditional-insert loop against the
pre-call store, commit the pending rows at the end, and return the new
committed store together with `stored_any`. -/
def store_data (db : Store) (charger_name timestamp : String)
    (pairs : List (String × String)) : Store × Bool :=
  let r := storeLoop db charger_name timestamp pairs [] false
  (db ++ r.1, r.2)

/-- The spec's per-pair decision rule: store iff no prior state exists or
the prior `status_value` differs under exact string equality. -/
def specShouldStore (db : Store) (charger_name : String) (pv : String × String) : Bool :=
  match get_last_port_state db charger_name pv.1 with
  | Option.none => true
  | some w => w != pv.2

/-- The stored `status_value`s for one `(entity, sub-resource)` pair, in
`sequence_id` order. -/
def portHistory (db : Store) (charger_name port_id : String) : List String :=
  (db.filter (fun r => r.charger_name == charger_name && r.port_id == port_id)).map
    (·.port_status)

/-- No two adjacent elements are equal. -/
def noAdjDup : List String → Bool
  | [] => true
  | [_] => true
  | a :: b :: t => (a != b) && noAdjDup (b :: t)

/-- One `store_data` call: entity, cycle timestamp, extracted pairs. -/
structure RecordCall where
  charger_name : String
  timestamp : String
  pairs : List (String × String)

/-- Run a sequence of `store_data` calls starting from a given store. -/
def runCalls (calls : List RecordCall) (db : Store) : Store :=
  calls.foldl (fun s c => (store_data s c.charger_name c.timestamp c.pairs).1) db

/-! ## Store initialization: `init_database` (lines 28-48) -/

/-- The schema state of the SQLite database: named tables and named
indexes, each with its definition text, in creation order. -/
structure DbSchema where
  tables : List (String × String)
  indexes : List (String × String)
deriving DecidableEq

/-- Model of `CREATE TABLE IF NOT EXISTS`: a no-op when a table of that name
already exists. -/
def createTableIfNotExists (s : DbSchema) (nm defn : String) : DbSchema :=
  if s.tables.any (fun t => t.1 == nm) then s
  else { s with tables := s.tables ++ [(nm, defn)] }

/-- Model of `CREATE INDEX IF NOT EXISTS`: a no-op when an index of that name
already exists. -/
def createIndexIfNotExists (s : DbSchema) (nm defn : String) : DbSchema :=
  if s.indexes.any (fun t => t.1 == nm) then s
  else { s with indexes := s.indexes ++ [(nm, defn)] }

def chargerTableDef : String :=
  "id INTEGER PRIMARY KEY AUTOINCREMENT, charger_name TEXT NOT NULL, timestamp TEXT NOT NULL, port_id TEXT NOT NULL, port_status TEXT NOT NULL"

def chargerIndexDef : String := "charger_data(charger_name)"

/-- Model of `init_database` (lines 28-48): create the `charger_data` table and
the `idx_charger_name` index, each only if not already present. -/
def init_database (s : DbSchema) : DbSchema :=
  createIndexIfNotExists (createTableIfNotExists s "charger_data" chargerTableDef)
    "idx_charger_name" chargerIndexDef

/-- An entity whose single port extracts cleanly to `("A1", "ok")`. -/
def goodEntity : PyVal :=
  .dict [("ports", .list [.dict [("portId", .str "A1"), ("status", .str "ok")]])]

/-- A response whose `entities` list holds a clean entity followed by an
entity (`5`) on which `'ports' in entity` raises `TypeError`. -/
def mixedResponse : PyVal := .dict [("entities", .list [goodEntity, .int 5])]

/-- The `entities` member of a response: present only on a dict. -/
def entitiesField (d : PyVal) : Option PyVal :=
  match d with
  | .dict kvs => lookupKey kvs "entities"
  | _ => Option.none

/-- The row built for one stored pair. -/
def mkRow (charger_name timestamp : String) (pv : String × String) : Row :=
  ⟨charger_name, timestamp, pv.1, pv.2⟩

/-! ## Recorder lemmas -/

/-- The source's insert condition `last_status is None or
last_status != port_status` is exactly the spec's decision rule. -/
theorem specShouldStore_iff (db : Store) (c p v : String) :
    specShouldStore db c (p, v) = true ↔
      (get_last_port_state db c p = Option.none ∨
        get_last_port_state db c p ≠ some v) := by
  unfold specShouldStore
  cases hg : get_last_port_state db c p with
  | none => simp
  | some w => simp [bne_iff_ne]

/-- A stored pair's value differs from the pre-call last state. -/
theorem specShouldStore_ne (db : Store) (c p v : String)
    (h : specShouldStore db c (p, v) = true) :
    get_last_port_state db c p ≠ some v := by
  rcases (specShouldStore_iff db c p v).1 h with h' | h'
  · intro hc; rw [hc] at h'; exact Option.noConfusion h'
  · exact h'

/-- Closed form of the insert loop of `store_data`: the pending rows are
the accumulator followed by one row per pair passing the decision rule, in
order, and `stored_any` records whether any pair passed. -/
theorem storeLoop_eq (db : Store) (c t : String) (pairs : List (String × String))
    (pending : List Row) (b : Bool) :
    storeLoop db c t pairs pending b =
      (pending ++ (pairs.filter (specShouldStore db c)).map (mkRow c t),
        b || pairs.any (specShouldStore db c)) := by
  induction pairs generalizing pending b with
  | nil => simp [storeLoop]
  | cons pv rest ih =>
    obtain ⟨p, v⟩ := pv
    by_cases h : get_last_port_state db c p = Option.none ∨
        get_last_port_state db c p ≠ some v
    · have hs : specShouldStore db c (p, v) = true := (specShouldStore_iff db c p v).2 h
      simp only [storeLoop, if_pos h, ih, List.filter_cons, hs, if_true,
        List.map_cons, List.any_cons, mkRow, Bool.true_or, Bool.or_true,
        List.append_assoc, List.singleton_append]
    · have hs : specShouldStore db c (p, v) = false := by
        cases hb : specShouldStore db c (p, v) with
        | false => rfl
        | true => exact absurd ((specShouldStore_iff db c p v).1 hb) h
      simp only [storeLoop, if_neg h, ih, List.filter_cons, hs, if_false,
        List.any_cons, Bool.false_or, Bool.cond_false]
      simp [hs]

/-- Closed form of `store_data`: it appends exactly the rows of the pairs
passing the decision rule (against the pre-call store) and reports whether
there was at least one. -/
theorem store_data_eq (db : Store) (c t : String) (pairs : List (String × String)) :
    store_data db c t pairs =
      (db ++ (pairs.filter (specShouldStore db c)).map (mkRow c t),
        pairs.any (specShouldStore db c)) := by
  simp [store_data, storeLoop_eq]

/-- Port histories split over an append of stores. -/
theorem portHistory_append (d₁ d₂ : Store) (c p : String) :
    portHistory (d₁ ++ d₂) c p = portHistory d₁ c p ++ portHistory d₂ c p := by
  simp [portHistory, List.filter_append]

/-- The last-state lookup is the last element of the port's history. -/
theorem get_last_port_state_eq (db : Store) (c p : String) :
    get_last_port_state db c p = (portHistory db c p).getLast? := by
  simp [get_last_port_state, portHistory, List.getLast?_map]

/-- The history contributed by the rows of one call, for the call's own
entity: the values of the call's pairs for that port. -/
theorem portHistory_mkRow (lp : List (String × String)) (c t p : String) :
    portHistory (lp.map (mkRow c t)) c p =
      (lp.filter (fun pv => pv.1 == p)).map (·.2) := by
  unfold portHistory
  rw [List.filter_map]
  rw [List.map_map]
  congr 1
  · congr 1
    funext pv
    simp [mkRow, Function.comp]

/-- Rows of one call are invisible to other entities' histories. -/
theorem portHistory_mkRow_ne (lp : List (String × String)) (c t e p : String)
    (h : c ≠ e) : portHistory (lp.map (mkRow c t)) e p = [] := by
  unfold portHistory
  rw [List.filter_map]
  have : (lp.filter ((fun r : Row => r.charger_name == e && r.port_id == p) ∘ mkRow c t)) = [] := by
    apply List.filter_eq_nil_iff.2
    intro pv _
    simp [mkRow, h]
  rw [this]
  rfl

/-- Appending one value keeps a list free of adjacent duplicates exactly
when the value differs from the previous last element. -/
theorem noAdjDup_append (l : List String) (v : String)
    (h : noAdjDup l = true) (hne : l.getLast? ≠ some v) :
    noAdjDup (l ++ [v]) = true := by
  induction l with
  | nil => simp [noAdjDup]
  | cons a t ih =>
    cases t with
    | nil =>
      simp only [List.getLast?_singleton, ne_eq, Option.some.injEq] at hne
      simp [noAdjDup, bne_iff_ne, hne]
    | cons b t' =>
      simp only [noAdjDup, Bool.and_eq_true] at h
      have hne' : (b :: t').getLast? ≠ some v := by
        rwa [List.getLast?_cons_cons] at hne
      have := ih h.2 hne'
      simp only [List.cons_append, noAdjDup, Bool.and_eq_true]
      exact ⟨h.1, by simpa using this⟩

/-- In a list of pairs with pairwise-distinct first components, at most
one entry has a given first component. -/
theorem filter_fst_nodup (lp : List (String × String)) (p : String)
    (h : (lp.map Prod.fst).Nodup) :
    lp.filter (fun pv => pv.1 == p) = [] ∨
      ∃ v, lp.filter (fun pv => pv.1 == p) = [(p, v)] := by
  induction lp with
  | nil => exact Or.inl rfl
  | cons a t ih =>
    simp only [List.map_cons, List.nodup_cons] at h
    by_cases hp : a.1 = p
    · right
      refine ⟨a.2, ?_⟩
      have ht : t.filter (fun pv => pv.1 == p) = [] := by
        apply List.filter_eq_nil_iff.2
        intro pv hm
        simp only [beq_iff_eq]
        intro hc
        have hmem : pv.1 ∈ List.map Prod.fst t := List.mem_map_of_mem Prod.fst hm
        rw [hc, ← hp] at hmem
        exact h.1 hmem
      have ha : a = (p, a.2) := by
        cases a; simp at hp ⊢; exact hp
      rw [List.filter_cons, if_pos (by simp [hp]), ht, ha]
    · rcases ih h.2 with h0 | ⟨v, hv⟩
      · left; rw [List.filter_cons, if_neg (by simp [hp]), h0]
      · right; exact ⟨v, by rw [List.filter_cons, if_neg (by simp [hp]), hv]⟩

/-- One `store_data` call whose pairs carry pairwise-distinct port ids
preserves the no-duplicate-run invariant of every port history. -/
theorem store_data_preserves_noAdjDup (db : Store) (c t : String)
    (pairs : List (String × String)) (hnd : (pairs.map Prod.fst).Nodup)
    (hinv : ∀ e p, noAdjDup (portHistory db e p) = true) :
    ∀ e p, noAdjDup (portHistory (store_data db c t pairs).1 e p) = true := by
  intro e p
  rw [store_data_eq]
  simp only
  rw [portHistory_append]
  by_cases hce : c = e
  · subst hce
    rw [portHistory_mkRow]
    have hsub : ((pairs.filter (specShouldStore db c)).map Prod.fst).Nodup :=
      ((List.filter_sublist pairs).map Prod.fst).nodup hnd
    rcases filter_fst_nodup (pairs.filter (specShouldStore db c)) p hsub with h0 | ⟨v, hv⟩
    · rw [h0]
      simpa using hinv c p
    · rw [hv]
      have hmem0 : (p, v) ∈ (pairs.filter (specShouldStore db c)).filter
          (fun pv => pv.1 == p) := by
        rw [hv]; exact List.mem_singleton.2 rfl
      have hsh : specShouldStore db c (p, v) = true :=
        List.of_mem_filter (List.mem_of_mem_filter hmem0)
      have hne : (portHistory db c p).getLast? ≠ some v := by
        rw [← get_last_port_state_eq]
        exact specShouldStore_ne db c p v hsh
      simpa using noAdjDup_append (portHistory db c p) v (hinv c p) hne
  · rw [portHistory_mkRow_ne _ _ _ _ _ hce]
    simpa using hinv e p

/-- Running any sequence of calls, each with pairwise-distinct port ids,
preserves the no-duplicate-run invariant. -/
theorem runCalls_preserves_noAdjDup (calls : List RecordCall) (db : Store)
    (hnd : ∀ cl ∈ calls, (cl.pairs.map Prod.fst).Nodup)
    (hinv : ∀ e p, noAdjDup (portHistory db e p) = true) :
    ∀ e p, noAdjDup (portHistory (runCalls calls db) e p) = true := by
  induction calls generalizing db with
  | nil => exact hinv
  | cons cl rest ih =>
    have hstep := store_data_preserves_noAdjDup db cl.charger_name cl.timestamp cl.pairs
      (hnd cl (List.mem_cons_self cl rest)) hinv
    exact ih _ (fun c hc => hnd c (List.mem_cons_of_mem cl hc)) hstep

/-! ## Fetcher lemmas -/

/-- The port loop only appends to its accumulator. -/
theorem extractPortsLoop_acc (acc : List (PyVal × PyVal)) (ports : List PyVal) :
    extractPortsLoop acc ports =
      (acc ++ (extractPortsLoop [] ports).1, (extractPortsLoop [] ports).2) := by
  induction ports generalizing acc with
  | nil => simp [extractPortsLoop]
  | cons port rest ih =>
    cases hpid : pyDictGet port "portId" (.str "unknown") with
    | error e => simp [extractPortsLoop, hpid]
    | ok pid =>
      cases hpst : pyDictGet port "status" (.str "unknown") with
      | error e => simp [extractPortsLoop, hpid, hpst]
      | ok pst =>
        simp only [extractPortsLoop, hpid, hpst, List.nil_append]
        rw [ih (acc ++ [(pid, pst)]), ih [(pid, pst)]]
        simp

/-- The entity loop only appends to its accumulator. -/
theorem extractEntitiesLoop_acc (acc : List (PyVal × PyVal)) (es : List PyVal) :
    extractEntitiesLoop acc es =
      (acc ++ (extractEntitiesLoop [] es).1, (extractEntitiesLoop [] es).2) := by
  induction es generalizing acc with
  | nil => simp [extractEntitiesLoop]
  | cons entity rest ih =>
    cases hc : pyContains "ports" entity with
    | error e => simp [extractEntitiesLoop, hc]
    | ok b =>
      cases b with
      | false => simp only [extractEntitiesLoop, hc]; exact ih acc
      | true =>
        cases hg : pyGetStr entity "ports" with
        | error e => simp [extractEntitiesLoop, hc, hg]
        | ok pv =>
          cases pv with
          | list ports =>
            simp only [extractEntitiesLoop, hc, hg]
            cases hpl : extractPortsLoop [] ports with
            | mk ps flag =>
              have hacc : extractPortsLoop acc ports = (acc ++ ps, flag) := by
                rw [extractPortsLoop_acc acc ports, hpl]
              cases flag with
              | true => simp [hacc, hpl]
              | false =>
                simp only [hacc, hpl]
                rw [ih (acc ++ ps), ih ps]
                simp
          | none => simp only [extractEntitiesLoop, hc, hg]; exact ih acc
          | bool b' => simp only [extractEntitiesLoop, hc, hg]; exact ih acc
          | int n => simp only [extractEntitiesLoop, hc, hg]; exact ih acc
          | str s => simp only [extractEntitiesLoop, hc, hg]; exact ih acc
          | dict kvs => simp only [extractEntitiesLoop, hc, hg]; exact ih acc

/-- When a prefix of the entity list extracts cleanly, the loop over the
whole list is the prefix's pairs followed by the rest's result. -/
theorem extractEntitiesLoop_append (es₁ es₂ : List PyVal)
    (h : (extractEntitiesLoop [] es₁).2 = false) :
    extractEntitiesLoop [] (es₁ ++ es₂) =
      ((extractEntitiesLoop [] es₁).1 ++ (extractEntitiesLoop [] es₂).1,
        (extractEntitiesLoop [] es₂).2) := by
  induction es₁ with
  | nil => simp [extractEntitiesLoop]
  | cons entity rest ih =>
    rw [List.cons_append]
    cases hc : pyContains "ports" entity with
    | error e => simp [extractEntitiesLoop, hc] at h
    | ok b =>
      cases b with
      | false =>
        simp only [extractEntitiesLoop, hc] at h ⊢
        exact ih h
      | true =>
        cases hg : pyGetStr entity "ports" with
        | error e => simp [extractEntitiesLoop, hc, hg] at h
        | ok pv =>
          cases pv with
          | list ports =>
            simp only [extractEntitiesLoop, hc, hg] at h ⊢
            cases hpl : extractPortsLoop [] ports with
            | mk ps flag =>
              cases flag with
              | true => rw [hpl] at h; simp at h
              | false =>
                rw [hpl] at h
                simp only [extractEntitiesLoop_acc ps rest] at h
                dsimp only
                rw [extractEntitiesLoop_acc ps (rest ++ es₂),
                  extractEntitiesLoop_acc ps rest, ih h]
                simp
          | none => simp only [extractEntitiesLoop, hc, hg] at h ⊢; exact ih h
          | bool b' => simp only [extractEntitiesLoop, hc, hg] at h ⊢; exact ih h
          | int n => simp only [extractEntitiesLoop, hc, hg] at h ⊢; exact ih h
          | str s => simp only [extractEntitiesLoop, hc, hg] at h ⊢; exact ih h
          | dict kvs => simp only [extractEntitiesLoop, hc, hg] at h ⊢; exact ih h

/-- The fetcher's output is never the empty list. -/
theorem extract_port_data_ne_nil (d : PyVal) : extract_port_data d ≠ [] := by
  unfold extract_port_data
  by_cases he : (extractCore d).1.isEmpty = true
  · simp [he]
  · rw [if_neg he]
    exact fun hc => he (List.isEmpty_iff.2 hc)

/-! ## Schema lemmas -/

/-- After a conditional create, a table of the requested name exists. -/
theorem createTable_any (s : DbSchema) (nm defn : String) :
    ((createTableIfNotExists s nm defn).tables.any (fun t => t.1 == nm)) = true := by
  unfold createTableIfNotExists
  by_cases h : s.tables.any (fun t => t.1 == nm) = true
  · rw [if_pos h]; exact h
  · rw [if_neg h]; simp

/-- After a conditional create, an index of the requested name exists. -/
theorem createIndex_any (s : DbSchema) (nm defn : String) :
    ((createIndexIfNotExists s nm defn).indexes.any (fun t => t.1 == nm)) = true := by
  unfold createIndexIfNotExists
  by_cases h : s.indexes.any (fun t => t.1 == nm) = true
  · rw [if_pos h]; exact h
  · rw [if_neg h]; simp

/-- A conditional table create is a no-op when the table exists. -/
theorem createTable_of_any (s : DbSchema) (nm defn : String)
    (h : s.tables.any (fun t => t.1 == nm) = true) :
    createTableIfNotExists s nm defn = s := by
  unfold createTableIfNotExists
  rw [if_pos h]

/-- A conditional index create is a no-op when the index exists. -/
theorem createIndex_of_any (s : DbSchema) (nm defn : String)
    (h : s.indexes.any (fun t => t.1 == nm) = true) :
    createIndexIfNotExists s nm defn = s := by
  unfold createIndexIfNotExists
  rw [if_pos h]

/-- Creating an index never changes the tables. -/
theorem createIndex_tables (s : DbSchema) (nm defn : String) :
    (createIndexIfNotExists s nm defn).tables = s.tables := by
  unfold createIndexIfNotExists
  split <;> rfl

/-! ## The claims -/

/-- C1 (counterexample): the no-duplicate-run invariant fails as stated
when a single call's pairs list mentions the same `sub_resource_id`
twice: both lookups read the pre-call (empty) store, so both rows are
inserted and the history for `("NSP-BRI-01", "A1")` holds two adjacent
equal values. -/
theorem noDupRun_violated_on_repeated_port :
    noAdjDup (portHistory (runCalls
      [RecordCall.mk "NSP-BRI-01" "t1" [("A1", "available"), ("A1", "available")]] [])
      "NSP-BRI-01" "A1") = false := by decide

/-- C1 (amended): for every sequence of `store_data` calls starting from
an empty store in which each call's pairs list has pairwise-distinct
`sub_resource_id`s, the stored `status_value`s for every fixed
`(entity_id, sub_resource_id)`, ordered by `sequence_id`, never contain
two adjacent equal values. -/
theorem noDupRun_of_distinct_ports (calls : List RecordCall)
    (h : ∀ cl ∈ calls, (cl.pairs.map Prod.fst).Nodup) (e p : String) :
    noAdjDup (portHistory (runCalls calls []) e p) = true :=
  runCalls_preserves_noAdjDup calls [] h (fun _ _ => rfl) e p

/-- Witness for C1 (amended) at a concrete two-call sequence. -/
theorem noDupRun_of_distinct_ports_witness :
    (∀ cl ∈ [RecordCall.mk "NSP-BRI-01" "t1" [("A1", "available")],
        RecordCall.mk "NSP-BRI-01" "t2" [("A1", "charging"), ("B2", "available")]],
      (cl.pairs.map Prod.fst).Nodup) ∧
    noAdjDup (portHistory (runCalls
      [RecordCall.mk "NSP-BRI-01" "t1" [("A1", "available")],
        RecordCall.mk "NSP-BRI-01" "t2" [("A1", "charging"), ("B2", "available")]] [])
      "NSP-BRI-01" "A1") = true :=
  ⟨by decide, noDupRun_of_distinct_ports _ (by decide) "NSP-BRI-01" "A1"⟩

/-- C2: a `store_data` call appends exactly one new History Record, with
the call's `observed_at` timestamp and the pair's values, for each pair
whose `status_value` differs (exact string equality) from the most recent
record for `(entity_id, sub_resource_id)` in the durable (pre-call)
store — in particular a pair with no prior record is always stored — and
appends nothing else. -/
theorem store_data_appends_iff_changed (db : Store) (c t : String)
    (pairs : List (String × String)) :
    (store_data db c t pairs).1 =
      db ++ (pairs.filter (specShouldStore db c)).map (mkRow c t) := by
  rw [store_data_eq]

/-- C6: within one `store_data` call with pairwise-distinct port ids,
whether a given pair's row is appended depends only on that pair and the
pre-call store: two calls from the same store whose pairs lists both
contain the pair agree on whether its row is appended, whatever their
sibling pairs are. -/
theorem store_decision_noninterference (db : Store) (c t : String)
    (l₁ l₂ : List (String × String)) (p v : String)
    (h₁ : (l₁.map Prod.fst).Nodup) (h₂ : (l₂.map Prod.fst).Nodup)
    (m₁ : (p, v) ∈ l₁) (m₂ : (p, v) ∈ l₂) :
    (mkRow c t (p, v) ∈ ((store_data db c t l₁).1).drop db.length ↔
      mkRow c t (p, v) ∈ ((store_data db c t l₂).1).drop db.length) := by
  have key : ∀ l : List (String × String), (p, v) ∈ l →
      (mkRow c t (p, v) ∈ ((store_data db c t l).1).drop db.length ↔
        specShouldStore db c (p, v) = true) := by
    intro l hm
    rw [store_data_eq]
    dsimp only
    rw [List.drop_left]
    constructor
    · intro hmem
      rcases List.mem_map.1 hmem with ⟨pv, hpv, hrow⟩
      have hpv' : pv = (p, v) := by
        cases pv with
        | mk p' v' =>
          simp only [mkRow, Row.mk.injEq] at hrow
          simp [hrow.2.2.1, hrow.2.2.2]
      rw [hpv'] at hpv
      exact List.of_mem_filter hpv
    · intro hsh
      exact List.mem_map.2 ⟨(p, v), List.mem_filter.2 ⟨hm, hsh⟩, rfl⟩
  rw [key l₁ m₁, key l₂ m₂]

/-- Witness for C6 at a concrete pair of calls. -/
theorem store_decision_noninterference_witness :
    ((([("A1", "x")] : List (String × String)).map Prod.fst).Nodup) ∧
    ((([("B2", "y"), ("A1", "x")] : List (String × String)).map Prod.fst).Nodup) ∧
    (("A1", "x") ∈ ([("A1", "x")] : List (String × String))) ∧
    (("A1", "x") ∈ ([("B2", "y"), ("A1", "x")] : List (String × String))) ∧
    (mkRow "NSP-BRI-01" "t" ("A1", "x") ∈
        ((store_data [] "NSP-BRI-01" "t" [("A1", "x")]).1).drop ([] : Store).length ↔
      mkRow "NSP-BRI-01" "t" ("A1", "x") ∈
        ((store_data [] "NSP-BRI-01" "t" [("B2", "y"), ("A1", "x")]).1).drop
          ([] : Store).length) :=
  ⟨by decide, by decide, by decide, by decide,
    store_decision_noninterference [] "NSP-BRI-01" "t" _ _ "A1" "x"
      (by decide) (by decide) (by decide) (by decide)⟩

/-- C7: `store_data` returns `true` exactly when it appended at least one
new History Record (the committed store grew). -/
theorem store_data_returns_any_stored (db : Store) (c t : String)
    (pairs : List (String × String)) :
    ((store_data db c t pairs).2 = true ↔
      db.length < ((store_data db c t pairs).1).length) := by
  rw [store_data_eq]
  dsimp only
  rw [List.length_append]
  constructor
  · intro h
    rcases List.any_eq_true.1 h with ⟨pv, hm, hp⟩
    have hne : pairs.filter (specShouldStore db c) ≠ [] := by
      intro hc
      exact (List.filter_eq_nil_iff.1 hc pv hm) hp
    have hpos : 0 < ((pairs.filter (specShouldStore db c)).map (mkRow c t)).length := by
      rw [List.length_map]
      exact List.length_pos.2 hne
    omega
  · intro h
    have hne : pairs.filter (specShouldStore db c) ≠ [] := by
      intro hc
      rw [hc] at h
      simp at h
    rcases List.exists_mem_of_ne_nil _ hne with ⟨pv, hm⟩
    exact List.any_eq_true.2 ⟨pv, List.mem_of_mem_filter hm, List.of_mem_filter hm⟩

/-- C8: when every pair's value equals the last stored value for its
`(entity_id, sub_resource_id)`, the call appends nothing, leaves the
store unchanged, and returns `false`. -/
theorem store_data_noop_when_unchanged (db : Store) (c t : String)
    (pairs : List (String × String))
    (h : ∀ pv ∈ pairs, get_last_port_state db c pv.1 = some pv.2) :
    store_data db c t pairs = (db, false) := by
  rw [store_data_eq]
  have hf : pairs.filter (specShouldStore db c) = [] := by
    apply List.filter_eq_nil_iff.2
    intro pv hm hc
    cases pv with
    | mk p v => exact specShouldStore_ne db c p v hc (h _ hm)
  have ha : pairs.any (specShouldStore db c) = false := by
    cases hb : pairs.any (specShouldStore db c) with
    | false => rfl
    | true =>
      rcases List.any_eq_true.1 hb with ⟨pv, hm, hp⟩
      exact absurd hp ((List.filter_eq_nil_iff.1 hf) pv hm)
  rw [hf, ha]
  simp

/-- Witness for C8 at a concrete store and unchanged pair. -/
theorem store_data_noop_when_unchanged_witness :
    (∀ pv ∈ ([("A1", "available")] : List (String × String)),
      get_last_port_state [Row.mk "NSP-BRI-01" "t0" "A1" "available"]
        "NSP-BRI-01" pv.1 = some pv.2) ∧
    store_data [Row.mk "NSP-BRI-01" "t0" "A1" "available"] "NSP-BRI-01" "t1"
        [("A1", "available")] =
      ([Row.mk "NSP-BRI-01" "t0" "A1" "available"], false) :=
  ⟨by decide, store_data_noop_when_unchanged _ _ _ _ (by decide)⟩

/-- C10: during one `store_data` call the lookups see only rows committed
before the call began: the rows appended for the pairs after any split
point are exactly the rows a separate call on just those pairs, from the
same pre-call store, would append — rows inserted for earlier pairs of
the same call are never visible to later lookups. -/
theorem lookup_sees_precall_store_only (db : Store) (c t : String)
    (l₁ l₂ : List (String × String)) :
    ((store_data db c t (l₁ ++ l₂)).1).drop ((store_data db c t l₁).1).length =
      ((store_data db c t l₂).1).drop db.length := by
  rw [store_data_eq, store_data_eq, store_data_eq]
  dsimp only
  rw [List.filter_append, List.map_append, ← List.append_assoc,
    List.drop_left, List.drop_left]

/-- C9: store initialization is idempotent: a second `init_database` run
finds the table and the index present and changes nothing. -/
theorem init_database_idempotent (s : DbSchema) :
    init_database (init_database s) = init_database s := by
  have htb : ((init_database s).tables.any (fun t => t.1 == "charger_data")) = true := by
    unfold init_database
    rw [createIndex_tables]
    exact createTable_any s "charger_data" chargerTableDef
  have hix : ((init_database s).indexes.any
      (fun t => t.1 == "idx_charger_name")) = true := by
    unfold init_database
    exact createIndex_any _ _ _
  calc init_database (init_database s)
      = createIndexIfNotExists
          (createTableIfNotExists (init_database s) "charger_data" chargerTableDef)
          "idx_charger_name" chargerIndexDef := rfl
    _ = createIndexIfNotExists (init_database s) "idx_charger_name" chargerIndexDef := by
        rw [createTable_of_any _ _ _ htb]
    _ = init_database s := createIndex_of_any _ _ _ hix

/-- C5: the State Fetcher pipeline — `query_api` (which absorbs every
`RequestException` into an error dict) followed by `extract_port_data`
(whose `except` clause absorbs extraction failures into the sentinel) —
is a total function that returns a non-empty list of pairs for every
transport outcome. -/
theorem fetch_total_nonempty (charger_name : String) (outcome : HttpOutcome) :
    extract_port_data (query_api charger_name outcome).data ≠ [] :=
  extract_port_data_ne_nil _

/-- C3 (counterexample): on `mixedResponse` a pair-extraction step raises
(the flag of `extractCore` is set), yet the fetcher yields the partial
list `[("A1","ok")]` of previously extracted pairs, not the sentinel
`[("unknown","error")]`. -/
theorem extract_error_yields_prior_pairs :
    (extractCore mixedResponse).2 = true ∧
      extract_port_data mixedResponse = [(.str "A1", .str "ok")] ∧
      extract_port_data mixedResponse ≠ [(.str "unknown", .str "error")] := by
  refine ⟨rfl, rfl, ?_⟩
  intro hc
  have h1 : extract_port_data mixedResponse = [(PyVal.str "A1", PyVal.str "ok")] := rfl
  rw [h1] at hc
  have h2 : PyVal.str "A1" = PyVal.str "unknown" :=
    congrArg (fun l => (l.headD (PyVal.str "", PyVal.str "")).1) hc
  have h3 : "A1" = "unknown" := by injection h2
  exact absurd h3 (by decide)

/-- A head entity whose processing raises (in any of its three raising
positions: the membership test, the subscript, or inside its ports loop)
stops the whole loop, contributing only the pairs it extracted before
raising. -/
theorem extractEntitiesLoop_raising_head (bad : PyVal) (es₂ : List PyVal)
    (h : (extractEntitiesLoop [] [bad]).2 = true) :
    extractEntitiesLoop [] (bad :: es₂) = ((extractEntitiesLoop [] [bad]).1, true) := by
  cases hc : pyContains "ports" bad with
  | error e => simp [extractEntitiesLoop, hc]
  | ok b =>
    cases b with
    | false => simp [extractEntitiesLoop, hc] at h
    | true =>
      cases hg : pyGetStr bad "ports" with
      | error e => simp [extractEntitiesLoop, hc, hg]
      | ok pv =>
        cases pv with
        | list ports =>
          cases hpl : extractPortsLoop [] ports with
          | mk acc2 flag =>
            cases flag with
            | true => simp [extractEntitiesLoop, hc, hg, hpl]
            | false => simp [extractEntitiesLoop, hc, hg, hpl] at h
        | none => simp [extractEntitiesLoop, hc, hg] at h
        | bool b' => simp [extractEntitiesLoop, hc, hg] at h
        | int n => simp [extractEntitiesLoop, hc, hg] at h
        | str s => simp [extractEntitiesLoop, hc, hg] at h
        | dict kvs => simp [extractEntitiesLoop, hc, hg] at h

/-- Every run of the entity loop that raises splits at its first raising
entity: a clean prefix, then an entity whose own processing raises. -/
theorem extractEntitiesLoop_error_split (es : List PyVal)
    (h : (extractEntitiesLoop [] es).2 = true) :
    ∃ es₁ bad es₂, es = es₁ ++ bad :: es₂ ∧
      (extractEntitiesLoop [] es₁).2 = false ∧
      (extractEntitiesLoop [] [bad]).2 = true := by
  induction es with
  | nil => simp [extractEntitiesLoop] at h
  | cons e rest ih =>
    cases hr : (extractEntitiesLoop [] [e]).2 with
    | true => exact ⟨[], e, rest, rfl, rfl, hr⟩
    | false =>
      have hsplit := extractEntitiesLoop_append [e] rest hr
      rw [List.singleton_append] at hsplit
      rw [hsplit] at h
      have h' : (extractEntitiesLoop [] rest).2 = true := h
      rcases ih h' with ⟨es₁, bad, es₂, heq, hclean, hbad⟩
      refine ⟨e :: es₁, bad, es₂, by rw [heq, List.cons_append], ?_, hbad⟩
      have h2 := extractEntitiesLoop_append [e] es₁ hr
      rw [List.singleton_append] at h2
      rw [h2]
      exact hclean

/-- C3 (amended): whenever extraction raises an error — at any
pair-extraction step: the membership test or subscript on an entity, or
a `.get` inside a ports loop — the run splits at the first raising entity
into a clean prefix and the raising entity, and the fetcher yields the
sentinel pair only if no pair had been extracted before the failure;
otherwise it yields exactly the pairs extracted before the failure: the
clean prefix's pairs followed by the pairs the raising entity contributed
before it raised.  (Structure mismatch and emptiness still yield the
sentinel, as stated separately in C4.) -/
theorem extract_error_returns_prefix_pairs (d : PyVal)
    (h : (extractCore d).2 = true) :
    ∃ es₁ es₂ : List PyVal, ∃ bad : PyVal,
      entitiesField d = some (PyVal.list (es₁ ++ bad :: es₂)) ∧
      (extractEntitiesLoop [] es₁).2 = false ∧
      (extractEntitiesLoop [] [bad]).2 = true ∧
      extract_port_data d =
        (if ((extractEntitiesLoop [] es₁).1 ++ (extractEntitiesLoop [] [bad]).1).isEmpty
          then [(.str "unknown", .str "error")]
          else (extractEntitiesLoop [] es₁).1 ++ (extractEntitiesLoop [] [bad]).1) := by
  cases d with
  | dict kvs =>
    cases hl : lookupKey kvs "entities" with
    | none => exact absurd h (by simp [extractCore, hl])
    | some j =>
      cases j with
      | list es =>
        have hes : extractCore (PyVal.dict kvs) = extractEntitiesLoop [] es := by
          simp [extractCore, hl]
        rw [hes] at h
        rcases extractEntitiesLoop_error_split es h with ⟨es₁, bad, es₂, heq, hclean, hbad⟩
        refine ⟨es₁, es₂, bad, ?_, hclean, hbad, ?_⟩
        · simp [entitiesField, hl, heq]
        · have hfull : extractEntitiesLoop [] es =
              ((extractEntitiesLoop [] es₁).1 ++ (extractEntitiesLoop [] [bad]).1,
                true) := by
            rw [heq, extractEntitiesLoop_append es₁ (bad :: es₂) hclean,
              extractEntitiesLoop_raising_head bad es₂ hbad]
          unfold extract_port_data
          rw [hes, hfull]
      | none => exact absurd h (by simp [extractCore, hl])
      | bool b => exact absurd h (by simp [extractCore, hl])
      | int n => exact absurd h (by simp [extractCore, hl])
      | str s => exact absurd h (by simp [extractCore, hl])
      | dict kvs2 => exact absurd h (by simp [extractCore, hl])
  | none => exact absurd h (by simp [extractCore])
  | bool b => exact absurd h (by simp [extractCore])
  | int n => exact absurd h (by simp [extractCore])
  | str s => exact absurd h (by simp [extractCore])
  | list xs => exact absurd h (by simp [extractCore])

/-- Witness for C3 (amended) at `mixedResponse`, whose second entity
raises after the first entity contributed `("A1","ok")`. -/
theorem extract_error_returns_prefix_pairs_witness :
    (extractCore mixedResponse).2 = true ∧
      ∃ es₁ es₂ : List PyVal, ∃ bad : PyVal,
        entitiesField mixedResponse = some (PyVal.list (es₁ ++ bad :: es₂)) ∧
        (extractEntitiesLoop [] es₁).2 = false ∧
        (extractEntitiesLoop [] [bad]).2 = true ∧
        extract_port_data mixedResponse =
          (if ((extractEntitiesLoop [] es₁).1 ++ (extractEntitiesLoop [] [bad]).1).isEmpty
            then [(.str "unknown", .str "error")]
            else (extractEntitiesLoop [] es₁).1 ++ (extractEntitiesLoop [] [bad]).1) :=
  ⟨rfl, extract_error_returns_prefix_pairs mixedResponse rfl⟩

/-- C4: a response with no `entities` key (in particular any non-dict),
or whose `entities` value is not a list, or is the empty list, makes the
fetcher return exactly the one-element sentinel list. -/
theorem extract_fallback_sentinel (d : PyVal)
    (h : entitiesField d = Option.none ∨
      (∃ j, entitiesField d = some j ∧ ∀ xs, j ≠ PyVal.list xs) ∨
      entitiesField d = some (PyVal.list [])) :
    extract_port_data d = [(.str "unknown", .str "error")] := by
  have hcore : extractCore d = ([], false) := by
    cases d with
    | dict kvs =>
      simp only [entitiesField] at h
      cases hl : lookupKey kvs "entities" with
      | none => simp [extractCore, hl]
      | some j =>
        rw [hl] at h
        cases j with
        | list xs =>
          rcases h with h | ⟨j', hj', hne⟩ | h
          · exact Option.noConfusion h
          · have hj : j' = PyVal.list xs := (Option.some.inj hj').symm
            subst hj
            exact absurd rfl (hne xs)
          · have h2 : PyVal.list xs = PyVal.list [] := Option.some.inj h
            have hx : xs = [] := by injection h2
            subst hx
            simp [extractCore, hl, extractEntitiesLoop]
        | none => simp [extractCore, hl]
        | bool b => simp [extractCore, hl]
        | int n => simp [extractCore, hl]
        | str s => simp [extractCore, hl]
        | dict kvs' => simp [extractCore, hl]
    | none => rfl
    | bool b => rfl
    | int n => rfl
    | str s => rfl
    | list xs => rfl
  unfold extract_port_data
  rw [hcore]
  rfl

/-- Witness for C4 at a dict missing the `entities` key. -/
theorem extract_fallback_sentinel_witness :
    entitiesField (PyVal.dict []) = Option.none ∧
      extract_port_data (PyVal.dict []) = [(.str "unknown", .str "error")] :=
  ⟨rfl, extract_fallback_sentinel _ (Or.inl rfl)⟩

end ChargelabMonitor
